import Mathlib

/-!
Verification development for libotr `src/privkey.c`: the private-key
registry, the key-file S-expression codec, the fingerprint trust-store
codec, and key generation.

The embedding models libgcrypt S-expressions (`gcry_sexp_t`) as a nested
inductive of atoms and lists, with the gcry accessors used by the code
(`gcry_sexp_nth_data`, `gcry_sexp_length`, `gcry_sexp_find_token`)
translated according to their documented semantics (in particular,
`find_token` is a preorder scan that can match the expression itself and
any nested sublist). File I/O is modelled with explicit state: the
registry is a `List PrivKey`, file contents are passed as parsed values,
and `otrl_privkey_generate`'s on-disk behaviour is additionally modelled
as a trace of file events.
-/

/-- A libgcrypt S-expression: an atom (token or string) or a list. -/
inductive SExp where
  | atom : String → SExp
  | list : List SExp → SExp

namespace SExp

/-- Model of `gcry_sexp_nth_data`: the data of the nth element when that
element is an atom (element 0 of a list is its head token); `none`
otherwise.  A plain data S-expression yields its own data at index 0. -/
def nthData : SExp → Nat → Option String
  | atom a, 0 => some a
  | atom _, _ + 1 => none
  | list l, n =>
    match l.get? n with
    | some (atom a) => some a
    | _ => none

/-- Model of `gcry_sexp_length`: number of list elements, 1 for an atom. -/
def sexpLength : SExp → Nat
  | atom _ => 1
  | list l => l.length

/-- Whether an S-expression is a list whose head token is `tok`. -/
def headIs (s : SExp) (tok : String) : Bool :=
  match s with
  | list (atom a :: _) => a = tok
  | _ => false

/-- Preorder scan of a list of S-expressions for a sublist whose head
token is `tok` (each element is checked itself, then its children). -/
def findTokenList (tok : String) : List SExp → Option SExp
  | [] => none
  | atom _ :: xs => findTokenList tok xs
  | list l :: xs =>
    if headIs (list l) tok then some (list l)
    else
      match findTokenList tok l with
      | some r => some r
      | none => findTokenList tok xs

/-- Model of `gcry_sexp_find_token`: preorder scan for a sublist whose
head token is `tok`; the expression itself is a candidate. -/
def findToken (tok : String) : SExp → Option SExp
  | atom _ => none
  | list l => if headIs (list l) tok then some (list l) else findTokenList tok l

end SExp

/-- A decoded key-file entry: `(accountname, protocol, private-key material)`.
The key material is the `(private-key ...)` S-expression, kept opaque. -/
structure Account where
  accountname : String
  protocol : String
  privkey : SExp

/-- A `PrivKey` registry record (struct `PrivKey`): identity strings, the
private-key S-expression, and the derived public-key encoding
(`pubkey_data`, modelled as a byte list). -/
structure PrivKey where
  accountname : String
  protocol : String
  privkey : SExp
  pubkey_data : List Nat

/-- Parsing of one `(account ...)` entry, mirroring the body of the loop in
`otrl_privkey_read` (privkey.c lines 140-194): the entry's head token must
be `account`; `name`, `protocol` and `private-key` sub-expressions must be
found; the `name` and `protocol` sub-expressions must carry an atomic value
at index 1 (`gcry_sexp_nth_data(·, 1)` non-NULL). Any failure aborts with
`GPG_ERR_UNUSABLE_SECKEY` (here: `none`). -/
def decodeEntry (accounts : SExp) : Option Account :=
  match SExp.nthData accounts 0 with
  | none => none
  | some token =>
    if token ≠ "account" then none
    else
      match SExp.findToken "name" accounts, SExp.findToken "protocol" accounts,
            SExp.findToken "private-key" accounts with
      | some names, some protos, some privs =>
        match SExp.nthData names 1 with
        | none => none
        | some name =>
          match SExp.nthData protos 1 with
          | none => none
          | some proto => some ⟨name, proto, privs⟩
      | _, _, _ => none

/-- The per-entry loop of `otrl_privkey_read` viewed as a pure codec
(`KeyFileCodec.decode` restricted to the entries): fails on the first bad
entry, discarding partial results. -/
def decodeEntries : List SExp → Option (List Account)
  | [] => some []
  | e :: rest =>
    match decodeEntry e with
    | none => none
    | some a => (decodeEntries rest).map (a :: ·)

/-- The top-level entries iterated by `otrl_privkey_read`'s loop
(`gcry_sexp_nth(allkeys, i)` for `1 ≤ i < gcry_sexp_length(allkeys)`). -/
def keyFileEntries : SExp → List SExp
  | SExp.atom _ => []
  | SExp.list l => l.drop 1

/-- `KeyFileCodec.decode`: the parse phase of `otrl_privkey_read`.
`none` as input models bytes `gcry_sexp_new` cannot parse.  The outer
token must be the literal `privkeys` (privkey.c lines 126-130), then each
entry is decoded, failing fast. -/
def decodeKeyFile : Option SExp → Option (List Account)
  | none => none
  | some allkeys =>
    if SExp.nthData allkeys 0 = some "privkeys" then
      decodeEntries (keyFileEntries allkeys)
    else none

/-- `otrl_privkey_find` (privkey.c lines 440-453): linear scan for the
first record whose accountname and protocol both match. -/
def otrl_privkey_find (us : List PrivKey) (accountname protocol : String) :
    Option PrivKey :=
  us.find? fun p => p.accountname = accountname && p.protocol = protocol

/-- `otrl_privkey_forget` (privkey.c lines 456-471): unlink one member
record from the list via its back-pointer.  The member is designated by
its position. -/
def otrl_privkey_forget (us : List PrivKey) (i : Nat) : List PrivKey :=
  us.eraseIdx i

/-- `otrl_privkey_forget_all` (privkey.c lines 474-479): repeatedly forget
the head record until the list is empty. -/
def otrl_privkey_forget_all : List PrivKey → List PrivKey
  | [] => []
  | _ :: rest => otrl_privkey_forget_all rest

/-- The registry-building loop of `otrl_privkey_read` (privkey.c lines
133-221).  `mkpub` models the external `otrl_proto_make_pubkey`.  Each
good entry is prepended to the registry; on a structural failure the loop
returns immediately with the registry as built so far; on a `mkpub`
failure the just-prepended record is forgotten again (lines 217-220), so
the registry is likewise left as built so far. -/
def readLoop (mkpub : SExp → Option (List Nat)) :
    List SExp → List PrivKey → Bool × List PrivKey
  | [], reg => (true, reg)
  | e :: rest, reg =>
    match decodeEntry e with
    | none => (false, reg)
    | some a =>
      match mkpub a.privkey with
      | none => (false, reg)
      | some pub =>
        readLoop mkpub rest (⟨a.accountname, a.protocol, a.privkey, pub⟩ :: reg)

/-- `otrl_privkey_read` (privkey.c lines 76-224): forget all previous
records, then (if the file could be opened, read and parsed: `file ≠ none`)
check the outer `privkeys` token and run the entry loop.  Returns the
success flag and the resulting registry. -/
def otrl_privkey_read (mkpub : SExp → Option (List Nat)) (file : Option SExp)
    (us : List PrivKey) : Bool × List PrivKey :=
  let us0 := otrl_privkey_forget_all us
  match file with
  | none => (false, us0)
  | some allkeys =>
    if SExp.nthData allkeys 0 = some "privkeys" then
      readLoop mkpub (keyFileEntries allkeys) us0
    else (false, us0)

/-- The write loop of `otrl_privkey_generate` (privkey.c lines 312-320):
emit every registry entry except those matching the requested
(accountname, protocol) (the `continue`), in registry order. -/
def writeAccounts (accountname protocol : String) : List PrivKey → List Account
  | [] => []
  | p :: rest =>
    if p.accountname = accountname && p.protocol = protocol then
      writeAccounts accountname protocol rest
    else
      ⟨p.accountname, p.protocol, p.privkey⟩ :: writeAccounts accountname protocol rest

/-- The S-expression that `account_write` (privkey.c lines 244-267) prints
for one entry: ` (account\n` + `(name ...)` + `(protocol ...)` + the
private-key S-expression + ` )\n`, which parses back to this value. -/
def encodeAccount (a : Account) : SExp :=
  SExp.list [SExp.atom "account",
    SExp.list [SExp.atom "name", SExp.atom a.accountname],
    SExp.list [SExp.atom "protocol", SExp.atom a.protocol],
    a.privkey]

/-- The S-expression the whole generated key file parses back to:
`(privkeys` + each entry + `)` (privkey.c lines 310-323). -/
def encodeKeyFile (entries : List Account) : SExp :=
  SExp.list (SExp.atom "privkeys" :: entries.map encodeAccount)

/-- The key file written by `otrl_privkey_generate` (privkey.c lines
310-323), at the S-expression level: all registry entries not matching the
requested identity, then the freshly generated entry. -/
def generateKeyFile (us : List PrivKey) (accountname protocol : String)
    (privkey : SExp) : SExp :=
  encodeKeyFile (writeAccounts accountname protocol us ++
    [⟨accountname, protocol, privkey⟩])


/-- On-disk operations `otrl_privkey_generate` can perform on key files.
`rename` is included in the event language so that its absence from the
generated trace is expressible. -/
inductive FileEvent where
  | openTrunc : String → FileEvent
  | write : String → String → FileEvent
  | closeFile : String → FileEvent
  | rename : String → String → FileEvent

/-- The one chunk of text `account_write` (privkey.c lines 244-267) prints
for an entry, given a printer `sprint` modelling `gcry_sexp_sprint` in
advanced format. -/
def account_write (sprint : SExp → String) (accountname protocol : String)
    (privkey : SExp) : String :=
  " (account\n" ++ sprint (SExp.list [SExp.atom "name", SExp.atom accountname]) ++
    sprint (SExp.list [SExp.atom "protocol", SExp.atom protocol]) ++
    sprint privkey ++ " )\n"

/-- The successive texts `otrl_privkey_generate` prints into the opened
key file (privkey.c lines 310-323). -/
def generateChunks (sprint : SExp → String) (us : List PrivKey)
    (accountname protocol : String) (privkey : SExp) : List String :=
  "(privkeys\n" ::
    ((writeAccounts accountname protocol us).map fun a =>
      account_write sprint a.accountname a.protocol a.privkey) ++
    [account_write sprint accountname protocol privkey, ")\n"]

/-- The trace of file events performed by `otrl_privkey_generate`
(privkey.c lines 272-330) on the key-file path: nothing if key generation
fails (lines 285-293) or if `fopen(filename, "w")` fails (lines 303-308);
otherwise the target itself is opened with mode `"w"` (truncating it),
the chunks are written, and the file is closed.  No other path is ever
touched and no rename is performed. -/
def otrl_privkey_generate_trace (sprint : SExp → String) (us : List PrivKey)
    (filename accountname protocol : String) (privkey : SExp)
    (genOk openOk : Bool) : List FileEvent :=
  if genOk = false then []
  else if openOk = false then []
  else
    FileEvent.openTrunc filename ::
      (generateChunks sprint us accountname protocol privkey).map
        (FileEvent.write filename) ++
      [FileEvent.closeFile filename]

/-- Effect of one file event on a file system (map from path to optional
contents).  `fopen(path, "w")` truncates the file to empty. -/
def applyEvent (fs : String → Option String) : FileEvent → String → Option String
  | FileEvent.openTrunc p => fun q => if q = p then some "" else fs q
  | FileEvent.write p d => fun q => if q = p then some ((fs p).getD "" ++ d) else fs q
  | FileEvent.closeFile _ => fs
  | FileEvent.rename src dst =>
    fun q => if q = dst then fs src else if q = src then none else fs q

/-- Effect of a sequence of file events. -/
def applyEvents (fs : String → Option String) : List FileEvent → String → Option String
  | [] => fs
  | e :: rest => applyEvents (applyEvent fs e) rest

/-- The path a file event touches. -/
def eventPath : FileEvent → String
  | FileEvent.openTrunc p => p
  | FileEvent.write p _ => p
  | FileEvent.closeFile p => p
  | FileEvent.rename _ dst => dst

/-- Whether a file event is a rename. -/
def isRename : FileEvent → Bool
  | FileEvent.rename _ _ => true
  | _ => false

/-- `ctoh` (privkey.c lines 333-339): hex character to nibble value;
any non-hex character yields 0. -/
def ctoh (c : Char) : Nat :=
  if '0' ≤ c ∧ c ≤ '9' then c.toNat - '0'.toNat
  else if 'a' ≤ c ∧ c ≤ 'f' then c.toNat - 'a'.toNat + 10
  else if 'A' ≤ c ∧ c ≤ 'F' then c.toNat - 'A'.toNat + 10
  else 0

/-- One lowercase hex digit, as printed by `%x`. -/
def hexDigitLower (n : Nat) : Char :=
  if n < 10 then Char.ofNat ('0'.toNat + n) else Char.ofNat ('a'.toNat + (n - 10))

/-- `%02x` of a byte (privkey.c line 429). -/
def byteToHexLower (b : Nat) : List Char :=
  [hexDigitLower (b / 16), hexDigitLower (b % 16)]

/-- The 40-character lowercase hex encoding of a fingerprint, as printed
by the loop in `otrl_privkey_write_fingerprints` (privkey.c lines 428-429). -/
def bytesToHex (bs : List Nat) : List Char :=
  (bs.map byteToHexLower).flatten

/-- The hex-decoding loop of `otrl_privkey_read_fingerprints` (privkey.c
lines 393-395): consecutive character pairs to bytes via `ctoh`. -/
def hexPairsToBytes : List Char → List Nat
  | c1 :: c2 :: rest => (ctoh c1 * 16 + ctoh c2) :: hexPairsToBytes rest
  | _ => []

/-- One uppercase hex digit, as printed by `%X`. -/
def hexDigitUpper (n : Nat) : Char :=
  if n < 10 then Char.ofNat ('0'.toNat + n) else Char.ofNat ('A'.toNat + (n - 10))

/-- `%02X` of a byte (privkey.c line 41). -/
def byteToHexUpper (b : Nat) : List Char :=
  [hexDigitUpper (b / 16), hexDigitUpper (b % 16)]

/-- `otrl_privkey_hash_to_human` (privkey.c lines 34-49): five groups of
four bytes printed `%02X`, each group followed by a space; the final space
is then overwritten by the terminator (here: dropped). -/
def otrl_privkey_hash_to_human (hash : List Nat) : List Char :=
  (((List.range 5).map fun word =>
      (((List.range 4).map fun byte =>
        byteToHexUpper (hash.getD (word * 4 + byte) 0)).flatten) ++ [' ']).flatten).dropLast

/-- `strchr`-and-split at the first occurrence of `c`: the part before it
and the part after it, or `none` when `c` does not occur. -/
def splitAtChar (c : Char) (l : List Char) : Option (List Char × List Char) :=
  if c ∈ l then
    some (l.takeWhile (· ≠ c), (l.dropWhile (· ≠ c)).drop 1)
  else none

/-- The end-of-line handling of `otrl_privkey_read_fingerprints`
(privkey.c lines 387-390): cut at the first CR if any, else at the first
LF if any, else the line is skipped. -/
def stripEol (l : List Char) : Option (List Char) :=
  if '\r' ∈ l then some (l.takeWhile (· ≠ '\r'))
  else if '\n' ∈ l then some (l.takeWhile (· ≠ '\n'))
  else none

/-- The per-line parsing of `otrl_privkey_read_fingerprints` (privkey.c
lines 361-395), `TrustStoreCodec.decodeLine`: split at the first three
tabs, cut the fourth field at CR/LF, require exactly 40 characters, and
decode them pairwise via `ctoh`; any failure silently skips the line. -/
def decodeLine (line : List Char) :
    Option (List Char × List Char × List Char × List Nat) :=
  match splitAtChar '\t' line with
  | none => none
  | some (username, rest1) =>
    match splitAtChar '\t' rest1 with
    | none => none
    | some (accountname, rest2) =>
      match splitAtChar '\t' rest2 with
      | none => none
      | some (protocol, hexPart) =>
        match stripEol hexPart with
        | none => none
        | some hex =>
          if hex.length = 40 then
            some (username, accountname, protocol, hexPairsToBytes hex)
          else none

/-- The (accountname, protocol) identity of a registry record. -/
def pkIdent (p : PrivKey) : String × String :=
  (p.accountname, p.protocol)

/-- The (accountname, protocol) identity of a key-file entry. -/
def accIdent (a : Account) : String × String :=
  (a.accountname, a.protocol)

/-- A lowercase hexadecimal digit character. -/
def isLowerHexDigit (c : Char) : Bool :=
  ('0' ≤ c && c ≤ '9') || ('a' ≤ c && c ≤ 'f')

/-- An uppercase hexadecimal digit character. -/
def isUpperHexDigit (c : Char) : Bool :=
  ('0' ≤ c && c ≤ '9') || ('A' ≤ c && c ≤ 'F')

theorem ctoh_hexDigitLower_eq (n : Nat) (h : n < 16) : ctoh (hexDigitLower n) = n := by
  interval_cases n <;> decide

theorem ctoh_hexDigitUpper_eq (n : Nat) (h : n < 16) : ctoh (hexDigitUpper n) = n := by
  interval_cases n <;> decide

theorem isLowerHexDigit_hexDigitLower (n : Nat) (h : n < 16) :
    isLowerHexDigit (hexDigitLower n) = true := by
  interval_cases n <;> decide

theorem bytesToHex_cons (b : Nat) (bs : List Nat) :
    bytesToHex (b :: bs) = byteToHexLower b ++ bytesToHex bs := by
  simp [bytesToHex]

theorem hexPairsToBytes_byteToHexLower (b : Nat) (hb : b < 256) :
    hexPairsToBytes (byteToHexLower b) = [b] := by
  simp [byteToHexLower, hexPairsToBytes, ctoh_hexDigitLower_eq (b / 16) (by omega),
    ctoh_hexDigitLower_eq (b % 16) (by omega)]
  omega

theorem hexPairsToBytes_bytesToHex (bs : List Nat) (hb : ∀ b ∈ bs, b < 256) :
    hexPairsToBytes (bytesToHex bs) = bs := by
  induction bs with
  | nil => rfl
  | cons b bs ih =>
    have hb0 : b < 256 := hb b (by simp)
    rw [bytesToHex_cons]
    have hsplit : hexPairsToBytes (byteToHexLower b ++ bytesToHex bs) =
        (ctoh (hexDigitLower (b / 16)) * 16 + ctoh (hexDigitLower (b % 16))) ::
          hexPairsToBytes (bytesToHex bs) := rfl
    rw [hsplit, ctoh_hexDigitLower_eq (b / 16) (by omega),
      ctoh_hexDigitLower_eq (b % 16) (by omega), ih fun x hx => hb x (by simp [hx])]
    congr 1
    omega

theorem bytesToHex_length (bs : List Nat) : (bytesToHex bs).length = 2 * bs.length := by
  induction bs with
  | nil => rfl
  | cons b bs ih => rw [bytesToHex_cons]; simp [byteToHexLower, ih]; omega

theorem bytesToHex_lower (bs : List Nat) (hb : ∀ b ∈ bs, b < 256) :
    ∀ c ∈ bytesToHex bs, isLowerHexDigit c = true := by
  induction bs with
  | nil => simp [bytesToHex]
  | cons b bs ih =>
    have hb0 : b < 256 := hb b (by simp)
    rw [bytesToHex_cons]
    intro c hc
    rcases List.mem_append.1 hc with h | h
    · simp only [byteToHexLower, List.mem_cons, List.not_mem_nil, or_false] at h
      rcases h with rfl | rfl
      · exact isLowerHexDigit_hexDigitLower _ (by omega)
      · exact isLowerHexDigit_hexDigitLower _ (by omega)
    · exact ih (fun x hx => hb x (by simp [hx])) c h

/-- C7: for every 20-byte buffer, hex-decoding the hex encoding gives the
buffer back; the encoding is exactly 40 lowercase hex characters; decoding
accepts upper- and lowercase digits alike; a non-hex character contributes
nibble value 0. -/
theorem hex_roundtrip_spec (h : List Nat) (hlen : h.length = 20)
    (hb : ∀ b ∈ h, b < 256) :
    hexPairsToBytes (bytesToHex h) = h ∧
    (bytesToHex h).length = 40 ∧
    (∀ c ∈ bytesToHex h, isLowerHexDigit c = true) ∧
    (∀ n : Nat, n < 16 → ctoh (hexDigitLower n) = n ∧ ctoh (hexDigitUpper n) = n) ∧
    (∀ c : Char, ¬('0' ≤ c ∧ c ≤ '9') → ¬('a' ≤ c ∧ c ≤ 'f') →
      ¬('A' ≤ c ∧ c ≤ 'F') → ctoh c = 0) := by
  refine ⟨hexPairsToBytes_bytesToHex h hb, ?_, bytesToHex_lower h hb, ?_, ?_⟩
  · rw [bytesToHex_length, hlen]
  · exact fun n hn => ⟨ctoh_hexDigitLower_eq n hn, ctoh_hexDigitUpper_eq n hn⟩
  · intro c h1 h2 h3
    simp [ctoh, h1, h2, h3]

/-- Witness for C7 at the concrete 20-byte buffer `[0, 1, ..., 19]`. -/
theorem hex_roundtrip_spec_witness :
    hexPairsToBytes (bytesToHex (List.range 20)) = List.range 20 ∧
    (bytesToHex (List.range 20)).length = 40 ∧
    (∀ c ∈ bytesToHex (List.range 20), isLowerHexDigit c = true) ∧
    (∀ n : Nat, n < 16 → ctoh (hexDigitLower n) = n ∧ ctoh (hexDigitUpper n) = n) ∧
    (∀ c : Char, ¬('0' ≤ c ∧ c ≤ '9') → ¬('a' ≤ c ∧ c ≤ 'f') →
      ¬('A' ≤ c ∧ c ≤ 'F') → ctoh c = 0) :=
  hex_roundtrip_spec (List.range 20) (by decide) (by decide)

theorem upper_byte_roundtrip (b : Nat) (hb : b < 256) :
    ctoh (hexDigitUpper (b / 16)) * 16 + ctoh (hexDigitUpper (b % 16)) = b := by
  rw [ctoh_hexDigitUpper_eq (b / 16) (by omega), ctoh_hexDigitUpper_eq (b % 16) (by omega)]
  omega

theorem hexDigitUpper_ne_space (n : Nat) (h : n < 16) : hexDigitUpper n ≠ ' ' := by
  interval_cases n <;> decide

theorem isUpperHexDigit_hexDigitUpper (n : Nat) (h : n < 16) :
    isUpperHexDigit (hexDigitUpper n) = true := by
  interval_cases n <;> decide

/-- `otrl_privkey_hash_to_human` on an explicit 20-byte buffer, fully
unfolded to its 44 output characters. -/
theorem hash_to_human_concrete (b0 b1 b2 b3 b4 b5 b6 b7 b8 b9 b10 b11 b12 b13
    b14 b15 b16 b17 b18 b19 : Nat) :
    otrl_privkey_hash_to_human
      [b0, b1, b2, b3, b4, b5, b6, b7, b8, b9, b10, b11, b12, b13, b14, b15,
       b16, b17, b18, b19] =
    [hexDigitUpper (b0 / 16), hexDigitUpper (b0 % 16),
     hexDigitUpper (b1 / 16), hexDigitUpper (b1 % 16),
     hexDigitUpper (b2 / 16), hexDigitUpper (b2 % 16),
     hexDigitUpper (b3 / 16), hexDigitUpper (b3 % 16), ' ',
     hexDigitUpper (b4 / 16), hexDigitUpper (b4 % 16),
     hexDigitUpper (b5 / 16), hexDigitUpper (b5 % 16),
     hexDigitUpper (b6 / 16), hexDigitUpper (b6 % 16),
     hexDigitUpper (b7 / 16), hexDigitUpper (b7 % 16), ' ',
     hexDigitUpper (b8 / 16), hexDigitUpper (b8 % 16),
     hexDigitUpper (b9 / 16), hexDigitUpper (b9 % 16),
     hexDigitUpper (b10 / 16), hexDigitUpper (b10 % 16),
     hexDigitUpper (b11 / 16), hexDigitUpper (b11 % 16), ' ',
     hexDigitUpper (b12 / 16), hexDigitUpper (b12 % 16),
     hexDigitUpper (b13 / 16), hexDigitUpper (b13 % 16),
     hexDigitUpper (b14 / 16), hexDigitUpper (b14 % 16),
     hexDigitUpper (b15 / 16), hexDigitUpper (b15 % 16), ' ',
     hexDigitUpper (b16 / 16), hexDigitUpper (b16 % 16),
     hexDigitUpper (b17 / 16), hexDigitUpper (b17 % 16),
     hexDigitUpper (b18 / 16), hexDigitUpper (b18 % 16),
     hexDigitUpper (b19 / 16), hexDigitUpper (b19 % 16)] := rfl

/-- C8: on every 20-byte hash the human-readable rendering has exactly 44
characters, its space characters are exactly at positions 8, 17, 26 and
35, every other character is an uppercase hexadecimal digit, and
hex-decoding each 8-character group reconstructs the corresponding 4-byte
slice of the hash. -/
theorem hash_to_human_spec (h : List Nat) (hlen : h.length = 20)
    (hb : ∀ b ∈ h, b < 256) :
    (otrl_privkey_hash_to_human h).length = 44 ∧
    (∀ i, i < 44 → ((otrl_privkey_hash_to_human h).getD i 'x' = ' ' ↔
      (i = 8 ∨ i = 17 ∨ i = 26 ∨ i = 35))) ∧
    (∀ c ∈ otrl_privkey_hash_to_human h, c = ' ' ∨ isUpperHexDigit c = true) ∧
    (∀ g, g < 5 → hexPairsToBytes (((otrl_privkey_hash_to_human h).drop (9 * g)).take 8) =
      ((h.drop (4 * g)).take 4)) := by
  obtain ⟨b0, t, rfl⟩ := List.exists_of_length_succ h hlen
  simp only [List.length_cons] at hlen
  obtain ⟨b1, t, rfl⟩ := List.exists_of_length_succ t (show t.length = 18 + 1 by omega)
  simp only [List.length_cons] at hlen
  obtain ⟨b2, t, rfl⟩ := List.exists_of_length_succ t (show t.length = 17 + 1 by omega)
  simp only [List.length_cons] at hlen
  obtain ⟨b3, t, rfl⟩ := List.exists_of_length_succ t (show t.length = 16 + 1 by omega)
  simp only [List.length_cons] at hlen
  obtain ⟨b4, t, rfl⟩ := List.exists_of_length_succ t (show t.length = 15 + 1 by omega)
  simp only [List.length_cons] at hlen
  obtain ⟨b5, t, rfl⟩ := List.exists_of_length_succ t (show t.length = 14 + 1 by omega)
  simp only [List.length_cons] at hlen
  obtain ⟨b6, t, rfl⟩ := List.exists_of_length_succ t (show t.length = 13 + 1 by omega)
  simp only [List.length_cons] at hlen
  obtain ⟨b7, t, rfl⟩ := List.exists_of_length_succ t (show t.length = 12 + 1 by omega)
  simp only [List.length_cons] at hlen
  obtain ⟨b8, t, rfl⟩ := List.exists_of_length_succ t (show t.length = 11 + 1 by omega)
  simp only [List.length_cons] at hlen
  obtain ⟨b9, t, rfl⟩ := List.exists_of_length_succ t (show t.length = 10 + 1 by omega)
  simp only [List.length_cons] at hlen
  obtain ⟨b10, t, rfl⟩ := List.exists_of_length_succ t (show t.length = 9 + 1 by omega)
  simp only [List.length_cons] at hlen
  obtain ⟨b11, t, rfl⟩ := List.exists_of_length_succ t (show t.length = 8 + 1 by omega)
  simp only [List.length_cons] at hlen
  obtain ⟨b12, t, rfl⟩ := List.exists_of_length_succ t (show t.length = 7 + 1 by omega)
  simp only [List.length_cons] at hlen
  obtain ⟨b13, t, rfl⟩ := List.exists_of_length_succ t (show t.length = 6 + 1 by omega)
  simp only [List.length_cons] at hlen
  obtain ⟨b14, t, rfl⟩ := List.exists_of_length_succ t (show t.length = 5 + 1 by omega)
  simp only [List.length_cons] at hlen
  obtain ⟨b15, t, rfl⟩ := List.exists_of_length_succ t (show t.length = 4 + 1 by omega)
  simp only [List.length_cons] at hlen
  obtain ⟨b16, t, rfl⟩ := List.exists_of_length_succ t (show t.length = 3 + 1 by omega)
  simp only [List.length_cons] at hlen
  obtain ⟨b17, t, rfl⟩ := List.exists_of_length_succ t (show t.length = 2 + 1 by omega)
  simp only [List.length_cons] at hlen
  obtain ⟨b18, t, rfl⟩ := List.exists_of_length_succ t (show t.length = 1 + 1 by omega)
  simp only [List.length_cons] at hlen
  obtain ⟨b19, t, rfl⟩ := List.exists_of_length_succ t (show t.length = 0 + 1 by omega)
  simp only [List.length_cons] at hlen
  have ht : t = [] := List.eq_nil_of_length_eq_zero (by omega)
  subst ht
  have hb0 : b0 < 256 := hb _ (by simp)
  have hb1 : b1 < 256 := hb _ (by simp)
  have hb2 : b2 < 256 := hb _ (by simp)
  have hb3 : b3 < 256 := hb _ (by simp)
  have hb4 : b4 < 256 := hb _ (by simp)
  have hb5 : b5 < 256 := hb _ (by simp)
  have hb6 : b6 < 256 := hb _ (by simp)
  have hb7 : b7 < 256 := hb _ (by simp)
  have hb8 : b8 < 256 := hb _ (by simp)
  have hb9 : b9 < 256 := hb _ (by simp)
  have hb10 : b10 < 256 := hb _ (by simp)
  have hb11 : b11 < 256 := hb _ (by simp)
  have hb12 : b12 < 256 := hb _ (by simp)
  have hb13 : b13 < 256 := hb _ (by simp)
  have hb14 : b14 < 256 := hb _ (by simp)
  have hb15 : b15 < 256 := hb _ (by simp)
  have hb16 : b16 < 256 := hb _ (by simp)
  have hb17 : b17 < 256 := hb _ (by simp)
  have hb18 : b18 < 256 := hb _ (by simp)
  have hb19 : b19 < 256 := hb _ (by simp)
  have hH := hash_to_human_concrete b0 b1 b2 b3 b4 b5 b6 b7 b8 b9 b10 b11 b12
    b13 b14 b15 b16 b17 b18 b19
  have s0 : hexDigitUpper (b0 / 16) ≠ ' ' := hexDigitUpper_ne_space _ (by omega)
  have s1 : hexDigitUpper (b1 / 16) ≠ ' ' := hexDigitUpper_ne_space _ (by omega)
  have s2 : hexDigitUpper (b2 / 16) ≠ ' ' := hexDigitUpper_ne_space _ (by omega)
  have s3 : hexDigitUpper (b3 / 16) ≠ ' ' := hexDigitUpper_ne_space _ (by omega)
  have s4 : hexDigitUpper (b4 / 16) ≠ ' ' := hexDigitUpper_ne_space _ (by omega)
  have s5 : hexDigitUpper (b5 / 16) ≠ ' ' := hexDigitUpper_ne_space _ (by omega)
  have s6 : hexDigitUpper (b6 / 16) ≠ ' ' := hexDigitUpper_ne_space _ (by omega)
  have s7 : hexDigitUpper (b7 / 16) ≠ ' ' := hexDigitUpper_ne_space _ (by omega)
  have s8 : hexDigitUpper (b8 / 16) ≠ ' ' := hexDigitUpper_ne_space _ (by omega)
  have s9 : hexDigitUpper (b9 / 16) ≠ ' ' := hexDigitUpper_ne_space _ (by omega)
  have s10 : hexDigitUpper (b10 / 16) ≠ ' ' := hexDigitUpper_ne_space _ (by omega)
  have s11 : hexDigitUpper (b11 / 16) ≠ ' ' := hexDigitUpper_ne_space _ (by omega)
  have s12 : hexDigitUpper (b12 / 16) ≠ ' ' := hexDigitUpper_ne_space _ (by omega)
  have s13 : hexDigitUpper (b13 / 16) ≠ ' ' := hexDigitUpper_ne_space _ (by omega)
  have s14 : hexDigitUpper (b14 / 16) ≠ ' ' := hexDigitUpper_ne_space _ (by omega)
  have s15 : hexDigitUpper (b15 / 16) ≠ ' ' := hexDigitUpper_ne_space _ (by omega)
  have s16 : hexDigitUpper (b16 / 16) ≠ ' ' := hexDigitUpper_ne_space _ (by omega)
  have s17 : hexDigitUpper (b17 / 16) ≠ ' ' := hexDigitUpper_ne_space _ (by omega)
  have s18 : hexDigitUpper (b18 / 16) ≠ ' ' := hexDigitUpper_ne_space _ (by omega)
  have s19 : hexDigitUpper (b19 / 16) ≠ ' ' := hexDigitUpper_ne_space _ (by omega)
  have m0 : hexDigitUpper (b0 % 16) ≠ ' ' := hexDigitUpper_ne_space _ (by omega)
  have m1 : hexDigitUpper (b1 % 16) ≠ ' ' := hexDigitUpper_ne_space _ (by omega)
  have m2 : hexDigitUpper (b2 % 16) ≠ ' ' := hexDigitUpper_ne_space _ (by omega)
  have m3 : hexDigitUpper (b3 % 16) ≠ ' ' := hexDigitUpper_ne_space _ (by omega)
  have m4 : hexDigitUpper (b4 % 16) ≠ ' ' := hexDigitUpper_ne_space _ (by omega)
  have m5 : hexDigitUpper (b5 % 16) ≠ ' ' := hexDigitUpper_ne_space _ (by omega)
  have m6 : hexDigitUpper (b6 % 16) ≠ ' ' := hexDigitUpper_ne_space _ (by omega)
  have m7 : hexDigitUpper (b7 % 16) ≠ ' ' := hexDigitUpper_ne_space _ (by omega)
  have m8 : hexDigitUpper (b8 % 16) ≠ ' ' := hexDigitUpper_ne_space _ (by omega)
  have m9 : hexDigitUpper (b9 % 16) ≠ ' ' := hexDigitUpper_ne_space _ (by omega)
  have m10 : hexDigitUpper (b10 % 16) ≠ ' ' := hexDigitUpper_ne_space _ (by omega)
  have m11 : hexDigitUpper (b11 % 16) ≠ ' ' := hexDigitUpper_ne_space _ (by omega)
  have m12 : hexDigitUpper (b12 % 16) ≠ ' ' := hexDigitUpper_ne_space _ (by omega)
  have m13 : hexDigitUpper (b13 % 16) ≠ ' ' := hexDigitUpper_ne_space _ (by omega)
  have m14 : hexDigitUpper (b14 % 16) ≠ ' ' := hexDigitUpper_ne_space _ (by omega)
  have m15 : hexDigitUpper (b15 % 16) ≠ ' ' := hexDigitUpper_ne_space _ (by omega)
  have m16 : hexDigitUpper (b16 % 16) ≠ ' ' := hexDigitUpper_ne_space _ (by omega)
  have m17 : hexDigitUpper (b17 % 16) ≠ ' ' := hexDigitUpper_ne_space _ (by omega)
  have m18 : hexDigitUpper (b18 % 16) ≠ ' ' := hexDigitUpper_ne_space _ (by omega)
  have m19 : hexDigitUpper (b19 % 16) ≠ ' ' := hexDigitUpper_ne_space _ (by omega)
  have r0 := upper_byte_roundtrip b0 hb0
  have r1 := upper_byte_roundtrip b1 hb1
  have r2 := upper_byte_roundtrip b2 hb2
  have r3 := upper_byte_roundtrip b3 hb3
  have r4 := upper_byte_roundtrip b4 hb4
  have r5 := upper_byte_roundtrip b5 hb5
  have r6 := upper_byte_roundtrip b6 hb6
  have r7 := upper_byte_roundtrip b7 hb7
  have r8 := upper_byte_roundtrip b8 hb8
  have r9 := upper_byte_roundtrip b9 hb9
  have r10 := upper_byte_roundtrip b10 hb10
  have r11 := upper_byte_roundtrip b11 hb11
  have r12 := upper_byte_roundtrip b12 hb12
  have r13 := upper_byte_roundtrip b13 hb13
  have r14 := upper_byte_roundtrip b14 hb14
  have r15 := upper_byte_roundtrip b15 hb15
  have r16 := upper_byte_roundtrip b16 hb16
  have r17 := upper_byte_roundtrip b17 hb17
  have r18 := upper_byte_roundtrip b18 hb18
  have r19 := upper_byte_roundtrip b19 hb19
  have u0 : isUpperHexDigit (hexDigitUpper (b0 / 16)) = true :=
    isUpperHexDigit_hexDigitUpper _ (by omega)
  have u1 : isUpperHexDigit (hexDigitUpper (b1 / 16)) = true :=
    isUpperHexDigit_hexDigitUpper _ (by omega)
  have u2 : isUpperHexDigit (hexDigitUpper (b2 / 16)) = true :=
    isUpperHexDigit_hexDigitUpper _ (by omega)
  have u3 : isUpperHexDigit (hexDigitUpper (b3 / 16)) = true :=
    isUpperHexDigit_hexDigitUpper _ (by omega)
  have u4 : isUpperHexDigit (hexDigitUpper (b4 / 16)) = true :=
    isUpperHexDigit_hexDigitUpper _ (by omega)
  have u5 : isUpperHexDigit (hexDigitUpper (b5 / 16)) = true :=
    isUpperHexDigit_hexDigitUpper _ (by omega)
  have u6 : isUpperHexDigit (hexDigitUpper (b6 / 16)) = true :=
    isUpperHexDigit_hexDigitUpper _ (by omega)
  have u7 : isUpperHexDigit (hexDigitUpper (b7 / 16)) = true :=
    isUpperHexDigit_hexDigitUpper _ (by omega)
  have u8 : isUpperHexDigit (hexDigitUpper (b8 / 16)) = true :=
    isUpperHexDigit_hexDigitUpper _ (by omega)
  have u9 : isUpperHexDigit (hexDigitUpper (b9 / 16)) = true :=
    isUpperHexDigit_hexDigitUpper _ (by omega)
  have u10 : isUpperHexDigit (hexDigitUpper (b10 / 16)) = true :=
    isUpperHexDigit_hexDigitUpper _ (by omega)
  have u11 : isUpperHexDigit (hexDigitUpper (b11 / 16)) = true :=
    isUpperHexDigit_hexDigitUpper _ (by omega)
  have u12 : isUpperHexDigit (hexDigitUpper (b12 / 16)) = true :=
    isUpperHexDigit_hexDigitUpper _ (by omega)
  have u13 : isUpperHexDigit (hexDigitUpper (b13 / 16)) = true :=
    isUpperHexDigit_hexDigitUpper _ (by omega)
  have u14 : isUpperHexDigit (hexDigitUpper (b14 / 16)) = true :=
    isUpperHexDigit_hexDigitUpper _ (by omega)
  have u15 : isUpperHexDigit (hexDigitUpper (b15 / 16)) = true :=
    isUpperHexDigit_hexDigitUpper _ (by omega)
  have u16 : isUpperHexDigit (hexDigitUpper (b16 / 16)) = true :=
    isUpperHexDigit_hexDigitUpper _ (by omega)
  have u17 : isUpperHexDigit (hexDigitUpper (b17 / 16)) = true :=
    isUpperHexDigit_hexDigitUpper _ (by omega)
  have u18 : isUpperHexDigit (hexDigitUpper (b18 / 16)) = true :=
    isUpperHexDigit_hexDigitUpper _ (by omega)
  have u19 : isUpperHexDigit (hexDigitUpper (b19 / 16)) = true :=
    isUpperHexDigit_hexDigitUpper _ (by omega)
  have v0 : isUpperHexDigit (hexDigitUpper (b0 % 16)) = true :=
    isUpperHexDigit_hexDigitUpper _ (by omega)
  have v1 : isUpperHexDigit (hexDigitUpper (b1 % 16)) = true :=
    isUpperHexDigit_hexDigitUpper _ (by omega)
  have v2 : isUpperHexDigit (hexDigitUpper (b2 % 16)) = true :=
    isUpperHexDigit_hexDigitUpper _ (by omega)
  have v3 : isUpperHexDigit (hexDigitUpper (b3 % 16)) = true :=
    isUpperHexDigit_hexDigitUpper _ (by omega)
  have v4 : isUpperHexDigit (hexDigitUpper (b4 % 16)) = true :=
    isUpperHexDigit_hexDigitUpper _ (by omega)
  have v5 : isUpperHexDigit (hexDigitUpper (b5 % 16)) = true :=
    isUpperHexDigit_hexDigitUpper _ (by omega)
  have v6 : isUpperHexDigit (hexDigitUpper (b6 % 16)) = true :=
    isUpperHexDigit_hexDigitUpper _ (by omega)
  have v7 : isUpperHexDigit (hexDigitUpper (b7 % 16)) = true :=
    isUpperHexDigit_hexDigitUpper _ (by omega)
  have v8 : isUpperHexDigit (hexDigitUpper (b8 % 16)) = true :=
    isUpperHexDigit_hexDigitUpper _ (by omega)
  have v9 : isUpperHexDigit (hexDigitUpper (b9 % 16)) = true :=
    isUpperHexDigit_hexDigitUpper _ (by omega)
  have v10 : isUpperHexDigit (hexDigitUpper (b10 % 16)) = true :=
    isUpperHexDigit_hexDigitUpper _ (by omega)
  have v11 : isUpperHexDigit (hexDigitUpper (b11 % 16)) = true :=
    isUpperHexDigit_hexDigitUpper _ (by omega)
  have v12 : isUpperHexDigit (hexDigitUpper (b12 % 16)) = true :=
    isUpperHexDigit_hexDigitUpper _ (by omega)
  have v13 : isUpperHexDigit (hexDigitUpper (b13 % 16)) = true :=
    isUpperHexDigit_hexDigitUpper _ (by omega)
  have v14 : isUpperHexDigit (hexDigitUpper (b14 % 16)) = true :=
    isUpperHexDigit_hexDigitUpper _ (by omega)
  have v15 : isUpperHexDigit (hexDigitUpper (b15 % 16)) = true :=
    isUpperHexDigit_hexDigitUpper _ (by omega)
  have v16 : isUpperHexDigit (hexDigitUpper (b16 % 16)) = true :=
    isUpperHexDigit_hexDigitUpper _ (by omega)
  have v17 : isUpperHexDigit (hexDigitUpper (b17 % 16)) = true :=
    isUpperHexDigit_hexDigitUpper _ (by omega)
  have v18 : isUpperHexDigit (hexDigitUpper (b18 % 16)) = true :=
    isUpperHexDigit_hexDigitUpper _ (by omega)
  have v19 : isUpperHexDigit (hexDigitUpper (b19 % 16)) = true :=
    isUpperHexDigit_hexDigitUpper _ (by omega)
  refine ⟨by rw [hH]; rfl, ?_, ?_, ?_⟩
  · intro i hi
    rw [hH]
    interval_cases i <;>
      simp [s0, s1, s2, s3, s4, s5, s6, s7, s8, s9, s10, s11, s12, s13, s14,
        s15, s16, s17, s18, s19, m0, m1, m2, m3, m4, m5, m6, m7, m8, m9, m10,
        m11, m12, m13, m14, m15, m16, m17, m18, m19]
  · rw [hH]
    simp [List.forall_mem_cons, u0, u1, u2, u3, u4, u5, u6, u7, u8, u9, u10,
      u11, u12, u13, u14, u15, u16, u17, u18, u19, v0, v1, v2, v3, v4, v5, v6,
      v7, v8, v9, v10, v11, v12, v13, v14, v15, v16, v17, v18, v19]
  · intro g hg
    rw [hH]
    interval_cases g <;>
      simp [hexPairsToBytes, r0, r1, r2, r3, r4, r5, r6, r7, r8, r9, r10, r11,
        r12, r13, r14, r15, r16, r17, r18, r19]

/-- Witness for C8 at the concrete 20-byte hash `[0, 1, ..., 19]`. -/
theorem hash_to_human_spec_witness :
    (otrl_privkey_hash_to_human (List.range 20)).length = 44 ∧
    (∀ i, i < 44 → ((otrl_privkey_hash_to_human (List.range 20)).getD i 'x' = ' ' ↔
      (i = 8 ∨ i = 17 ∨ i = 26 ∨ i = 35))) ∧
    (∀ c ∈ otrl_privkey_hash_to_human (List.range 20),
      c = ' ' ∨ isUpperHexDigit c = true) ∧
    (∀ g, g < 5 →
      hexPairsToBytes (((otrl_privkey_hash_to_human (List.range 20)).drop (9 * g)).take 8) =
        (((List.range 20).drop (4 * g)).take 4)) :=
  hash_to_human_spec (List.range 20) (by decide) (by decide)

theorem takeWhile_ne_append (c : Char) (u rest : List Char) (hu : c ∉ u) :
    (u ++ c :: rest).takeWhile (· ≠ c) = u := by
  induction u with
  | nil => simp [List.takeWhile_cons]
  | cons a u ih =>
    have ha : a ≠ c := fun h => hu (h ▸ List.mem_cons_self a u)
    have hu2 : c ∉ u := fun h => hu (List.mem_cons_of_mem a h)
    simp [List.takeWhile_cons, ha]
    simpa using ih hu2

theorem dropWhile_ne_append (c : Char) (u rest : List Char) (hu : c ∉ u) :
    (u ++ c :: rest).dropWhile (· ≠ c) = c :: rest := by
  induction u with
  | nil => simp [List.dropWhile_cons]
  | cons a u ih =>
    have ha : a ≠ c := fun h => hu (h ▸ List.mem_cons_self a u)
    have hu2 : c ∉ u := fun h => hu (List.mem_cons_of_mem a h)
    simp [List.dropWhile_cons, ha]
    simpa using ih hu2

theorem splitAtChar_app (c : Char) (u rest : List Char) (hu : c ∉ u) :
    splitAtChar c (u ++ c :: rest) = some (u, rest) := by
  have hmem : c ∈ u ++ c :: rest :=
    List.mem_append_right _ (List.mem_cons_self c rest)
  rw [splitAtChar, if_pos hmem, takeWhile_ne_append c u rest hu,
    dropWhile_ne_append c u rest hu]
  rfl

theorem mem_of_splitAtChar (c d : Char) (l u v : List Char)
    (h : splitAtChar c l = some (u, v)) (hd : d ∈ v) : d ∈ l := by
  rw [splitAtChar] at h
  split at h
  · rw [Option.some.injEq, Prod.mk.injEq] at h
    obtain ⟨-, hv⟩ := h
    subst hv
    exact ((List.drop_suffix 1 _).trans (List.dropWhile_suffix _)).sublist.subset hd
  · exact absurd h (by simp)

/-- C10: a trust-store line containing neither a carriage return nor a
newline is skipped by the loader, whatever else it contains — in
particular a final line lacking its terminator is dropped even when its
fields are well formed. -/
theorem decodeLine_no_eol_skipped (line : List Char) (hr : '\r' ∉ line)
    (hn : '\n' ∉ line) : decodeLine line = none := by
  cases h1 : splitAtChar '\t' line with
  | none => simp [decodeLine, h1]
  | some p1 =>
    obtain ⟨u, r1⟩ := p1
    cases h2 : splitAtChar '\t' r1 with
    | none => simp [decodeLine, h1, h2]
    | some p2 =>
      obtain ⟨a, r2⟩ := p2
      cases h3 : splitAtChar '\t' r2 with
      | none => simp [decodeLine, h1, h2, h3]
      | some p3 =>
        obtain ⟨p, hx⟩ := p3
        have hrx : '\r' ∉ hx := fun hm =>
          hr (mem_of_splitAtChar _ _ _ _ _ h1
            (mem_of_splitAtChar _ _ _ _ _ h2 (mem_of_splitAtChar _ _ _ _ _ h3 hm)))
        have hnx : '\n' ∉ hx := fun hm =>
          hn (mem_of_splitAtChar _ _ _ _ _ h1
            (mem_of_splitAtChar _ _ _ _ _ h2 (mem_of_splitAtChar _ _ _ _ _ h3 hm)))
        simp [decodeLine, h1, h2, h3, stripEol, hrx, hnx]

/-- Witness for C10: a line with four well-formed tab-separated fields and
a valid 40-character fingerprint, but no CR/LF, is skipped. -/
theorem decodeLine_no_eol_skipped_witness :
    decodeLine "alice\tbob\txmpp\t0102030405060708090a0b0c0d0e0f1011121314".data =
      none :=
  decodeLine_no_eol_skipped _ (by decide) (by decide)

/-- Counterexample to C3: the loader checks only the *length* of the
fourth field, never that its characters are hexadecimal.  A line whose
fingerprint field is forty `z` characters is accepted (decoding to twenty
zero bytes), while the claim says a line is accepted only if that field
is forty *hexadecimal* characters. -/
theorem decodeLine_accepts_nonhex :
    decodeLine "alice\tbob\txmpp\tzzzzzzzzzzzzzzzzzzzzzzzzzzzzzzzzzzzzzzzz\n".data =
      some ("alice".data, "bob".data, "xmpp".data, List.replicate 20 0) := by
  decide

/-- C3 (amended): line decoding splits on the first three tab characters
into four fields and accepts the line exactly when the fourth field is 40
characters long after cutting at the line terminator, decoding the field
leniently (each pair via `ctoh`, non-hex characters contributing 0); the
claim's three examples behave as stated. -/
theorem decodeLine_spec :
    (decodeLine "alice\tbob\txmpp\t0102030405060708090a0b0c0d0e0f1011121314\n".data =
      some ("alice".data, "bob".data, "xmpp".data,
        [0x01, 0x02, 0x03, 0x04, 0x05, 0x06, 0x07, 0x08, 0x09, 0x0a,
         0x0b, 0x0c, 0x0d, 0x0e, 0x0f, 0x10, 0x11, 0x12, 0x13, 0x14])) ∧
    (decodeLine "alice\tbob\t0102030405060708090a0b0c0d0e0f1011121314\n".data =
      none) ∧
    (decodeLine "alice\tbob\txmpp\t0102030405060708090a0b0c0d0e0f10111213\n".data =
      none) ∧
    (∀ u a p hex : List Char, '\t' ∉ u → '\t' ∉ a → '\t' ∉ p →
      '\r' ∉ hex → '\n' ∉ hex →
      decodeLine (u ++ '\t' :: (a ++ '\t' :: (p ++ '\t' :: (hex ++ ['\n'])))) =
        if hex.length = 40 then some (u, a, p, hexPairsToBytes hex) else none) := by
  refine ⟨by decide, by decide, by decide, ?_⟩
  intro u a p hex hu ha hp hr hn
  have hrx : '\r' ∉ hex ++ ['\n'] := by
    intro hm
    rcases List.mem_append.1 hm with hm | hm
    · exact hr hm
    · simp at hm
  have hnx : '\n' ∈ hex ++ ['\n'] := List.mem_append_right _ (by simp)
  have hcut : stripEol (hex ++ ['\n']) = some hex := by
    rw [stripEol, if_neg hrx, if_pos hnx]
    have : hex ++ ['\n'] = hex ++ '\n' :: [] := rfl
    rw [this, takeWhile_ne_append '\n' hex [] hn]
  simp only [decodeLine, splitAtChar_app '\t' u _ hu, splitAtChar_app '\t' a _ ha,
    splitAtChar_app '\t' p _ hp, hcut]

/-- Witness for the quantified part of C3 (amended), at the claim's own
example line built from its four fields. -/
theorem decodeLine_spec_witness :
    decodeLine ("alice".data ++ '\t' :: ("bob".data ++ '\t' :: ("xmpp".data ++
        '\t' :: ("0102030405060708090a0b0c0d0e0f1011121314".data ++ ['\n'])))) =
      some ("alice".data, "bob".data, "xmpp".data,
        hexPairsToBytes "0102030405060708090a0b0c0d0e0f1011121314".data) := by
  have h := decodeLine_spec.2.2.2 "alice".data "bob".data "xmpp".data
    "0102030405060708090a0b0c0d0e0f1011121314".data
    (by decide) (by decide) (by decide) (by decide) (by decide)
  rw [if_pos (by decide)] at h
  exact h

theorem otrl_privkey_forget_all_eq_nil (us : List PrivKey) :
    otrl_privkey_forget_all us = [] := by
  induction us with
  | nil => rfl
  | cons p rest ih => simpa [otrl_privkey_forget_all] using ih

/-- Counterexample to C9: when two records share the same
(accountname, protocol) — a state reachable by loading a key file with two
identical entries — forgetting one of them leaves the other findable, so
the search does not return none as claimed. -/
theorem forget_duplicate_identity_still_found :
    (otrl_privkey_find
      (otrl_privkey_forget
        [⟨"alice", "xmpp", SExp.list [SExp.atom "private-key"], []⟩,
         ⟨"alice", "xmpp", SExp.list [SExp.atom "private-key"], []⟩] 0)
      "alice" "xmpp").isSome = true := rfl

/-- C9 (amended): forgetting a member record always succeeds; afterwards a
search for its identity returns none provided no other record shares that
identity, and every other record remains a member; forgetting all records
empties the registry, and doing so on an empty registry is a no-op. -/
theorem forget_spec (us : List PrivKey) (i : Nat) (hi : i < us.length)
    (huniq : ∀ j, (hj : j < us.length) → j ≠ i →
      ¬((us.get ⟨j, hj⟩).accountname = (us.get ⟨i, hi⟩).accountname ∧
        (us.get ⟨j, hj⟩).protocol = (us.get ⟨i, hi⟩).protocol)) :
    otrl_privkey_find (otrl_privkey_forget us i)
        (us.get ⟨i, hi⟩).accountname (us.get ⟨i, hi⟩).protocol = none ∧
    (∀ j, (hj : j < us.length) → j ≠ i → us.get ⟨j, hj⟩ ∈ otrl_privkey_forget us i) ∧
    otrl_privkey_forget_all us = [] ∧
    otrl_privkey_forget_all ([] : List PrivKey) = [] := by
  refine ⟨?_, ?_, otrl_privkey_forget_all_eq_nil us, rfl⟩
  · rw [otrl_privkey_find, List.find?_eq_none]
    intro x hx
    rw [otrl_privkey_forget] at hx
    rw [List.mem_eraseIdx_iff_getElem] at hx
    obtain ⟨j, hj, hji, rfl⟩ := hx
    have := huniq j hj hji
    simp only [List.get_eq_getElem] at this
    simp only [Bool.and_eq_true, decide_eq_true_eq, not_and] at this ⊢
    intro h1 h2
    exact this h1 h2
  · intro j hj hji
    rw [otrl_privkey_forget, List.mem_eraseIdx_iff_getElem]
    refine ⟨j, hj, hji, ?_⟩
    simp

/-- Witness for C9 (amended) on a two-record registry with distinct
identities, forgetting the first record. -/
theorem forget_spec_witness :
    otrl_privkey_find
      (otrl_privkey_forget
        [⟨"alice", "xmpp", SExp.list [SExp.atom "private-key"], []⟩,
         ⟨"bob", "irc", SExp.list [SExp.atom "private-key"], []⟩] 0)
      "alice" "xmpp" = none ∧
    (∀ j, (hj : j < ([⟨"alice", "xmpp", SExp.list [SExp.atom "private-key"], []⟩,
         ⟨"bob", "irc", SExp.list [SExp.atom "private-key"], []⟩] :
           List PrivKey).length) → j ≠ 0 →
      ([⟨"alice", "xmpp", SExp.list [SExp.atom "private-key"], []⟩,
        ⟨"bob", "irc", SExp.list [SExp.atom "private-key"], []⟩] :
          List PrivKey).get ⟨j, hj⟩ ∈
        otrl_privkey_forget
          [⟨"alice", "xmpp", SExp.list [SExp.atom "private-key"], []⟩,
           ⟨"bob", "irc", SExp.list [SExp.atom "private-key"], []⟩] 0) ∧
    otrl_privkey_forget_all
      [⟨"alice", "xmpp", SExp.list [SExp.atom "private-key"], []⟩,
       ⟨"bob", "irc", SExp.list [SExp.atom "private-key"], []⟩] = [] ∧
    otrl_privkey_forget_all ([] : List PrivKey) = [] := by
  have h := forget_spec
    [⟨"alice", "xmpp", SExp.list [SExp.atom "private-key"], []⟩,
     ⟨"bob", "irc", SExp.list [SExp.atom "private-key"], []⟩] 0 (by decide)
    (by
      intro j hj hji
      have hj2 : j < 2 := by simpa using hj
      interval_cases j
      · exact absurd rfl hji
      · simp)
  simpa using h

theorem headIs_shape (s : SExp) (tok : String) (h : SExp.headIs s tok = true) :
    ∃ rest, s = SExp.list (SExp.atom tok :: rest) := by
  cases s with
  | atom a => simp [SExp.headIs] at h
  | list l =>
    cases l with
    | nil => simp [SExp.headIs] at h
    | cons x xs =>
      cases x with
      | atom a =>
        simp only [SExp.headIs, decide_eq_true_eq] at h
        exact ⟨xs, by rw [h]⟩
      | list m => simp [SExp.headIs] at h

/-- Decoding is a left inverse of the entry writer: an entry printed by
`account_write` parses back to the same (accountname, protocol, key
material) triple, provided the key material is a `(private-key ...)`
S-expression as stored in and produced by the library. -/
theorem decodeEntry_encodeAccount (a : Account)
    (h : SExp.headIs a.privkey "private-key" = true) :
    decodeEntry (encodeAccount a) = some a := by
  obtain ⟨n, p, pk⟩ := a
  obtain ⟨rest, hpk⟩ := headIs_shape pk "private-key" h
  subst hpk
  have h1 : SExp.findToken "name" (encodeAccount ⟨n, p,
      SExp.list (SExp.atom "private-key" :: rest)⟩) =
      some (SExp.list [SExp.atom "name", SExp.atom n]) := by
    simp [encodeAccount, SExp.findToken, SExp.findTokenList, SExp.headIs]
  have h2 : SExp.findToken "protocol" (encodeAccount ⟨n, p,
      SExp.list (SExp.atom "private-key" :: rest)⟩) =
      some (SExp.list [SExp.atom "protocol", SExp.atom p]) := by
    simp [encodeAccount, SExp.findToken, SExp.findTokenList, SExp.headIs]
  have h3 : SExp.findToken "private-key" (encodeAccount ⟨n, p,
      SExp.list (SExp.atom "private-key" :: rest)⟩) =
      some (SExp.list (SExp.atom "private-key" :: rest)) := by
    simp [encodeAccount, SExp.findToken, SExp.findTokenList, SExp.headIs]
  rw [decodeEntry]
  rw [show SExp.nthData (encodeAccount ⟨n, p,
      SExp.list (SExp.atom "private-key" :: rest)⟩) 0 = some "account" from rfl]
  rw [h1, h2, h3]
  simp [SExp.nthData]

theorem readLoop_nil (mkpub : SExp → Option (List Nat)) (reg : List PrivKey) :
    readLoop mkpub [] reg = (true, reg) := rfl

theorem readLoop_cons_fail_decode (mkpub : SExp → Option (List Nat)) (e : SExp)
    (rest : List SExp) (reg : List PrivKey) (hd : decodeEntry e = none) :
    readLoop mkpub (e :: rest) reg = (false, reg) := by
  have hstep : readLoop mkpub (e :: rest) reg =
      match decodeEntry e with
      | none => (false, reg)
      | some a =>
        match mkpub a.privkey with
        | none => (false, reg)
        | some pub =>
          readLoop mkpub rest (⟨a.accountname, a.protocol, a.privkey, pub⟩ :: reg) := rfl
  rw [hstep, hd]

theorem readLoop_cons_fail_mkpub (mkpub : SExp → Option (List Nat)) (e : SExp)
    (rest : List SExp) (reg : List PrivKey) (a : Account)
    (hd : decodeEntry e = some a) (hm : mkpub a.privkey = none) :
    readLoop mkpub (e :: rest) reg = (false, reg) := by
  have hstep : readLoop mkpub (e :: rest) reg =
      match decodeEntry e with
      | none => (false, reg)
      | some a =>
        match mkpub a.privkey with
        | none => (false, reg)
        | some pub =>
          readLoop mkpub rest (⟨a.accountname, a.protocol, a.privkey, pub⟩ :: reg) := rfl
  rw [hstep, hd]
  show (match mkpub a.privkey with
    | none => ((false, reg) : Bool × List PrivKey)
    | some pub =>
      readLoop mkpub rest (⟨a.accountname, a.protocol, a.privkey, pub⟩ :: reg)) =
    (false, reg)
  rw [hm]

theorem readLoop_cons_ok (mkpub : SExp → Option (List Nat)) (e : SExp)
    (rest : List SExp) (reg : List PrivKey) (a : Account) (pub : List Nat)
    (hd : decodeEntry e = some a) (hm : mkpub a.privkey = some pub) :
    readLoop mkpub (e :: rest) reg =
      readLoop mkpub rest (⟨a.accountname, a.protocol, a.privkey, pub⟩ :: reg) := by
  have hstep : readLoop mkpub (e :: rest) reg =
      match decodeEntry e with
      | none => (false, reg)
      | some a =>
        match mkpub a.privkey with
        | none => (false, reg)
        | some pub =>
          readLoop mkpub rest (⟨a.accountname, a.protocol, a.privkey, pub⟩ :: reg) := rfl
  rw [hstep, hd]
  show (match mkpub a.privkey with
    | none => ((false, reg) : Bool × List PrivKey)
    | some pub =>
      readLoop mkpub rest (⟨a.accountname, a.protocol, a.privkey, pub⟩ :: reg)) =
    readLoop mkpub rest (⟨a.accountname, a.protocol, a.privkey, pub⟩ :: reg)
  rw [hm]

theorem otrl_privkey_read_some (mkpub : SExp → Option (List Nat)) (allkeys : SExp)
    (us : List PrivKey) (h : SExp.nthData allkeys 0 = some "privkeys") :
    otrl_privkey_read mkpub (some allkeys) us =
      readLoop mkpub (keyFileEntries allkeys) (otrl_privkey_forget_all us) := by
  simp only [otrl_privkey_read, if_pos h]

/-- Counterexample to C1: loading a key file whose first entry is good and
whose second entry is structurally bad fails, yet leaves the first entry's
record in the registry — `otrl_privkey_read` only clears state *before*
the load and, on a mid-load failure, returns without discarding the
records already built (privkey.c lines 144-147 return with earlier records
still linked into the user state), so find does not return none for every
identity after this failing load. -/
theorem read_failure_keeps_prefix :
    (otrl_privkey_read (fun _ => some []) (some (SExp.list [SExp.atom "privkeys",
        SExp.list [SExp.atom "account",
          SExp.list [SExp.atom "name", SExp.atom "alice"],
          SExp.list [SExp.atom "protocol", SExp.atom "prot"],
          SExp.list [SExp.atom "private-key"]],
        SExp.atom "junk"])) []).1 = false ∧
    (otrl_privkey_find
      (otrl_privkey_read (fun _ => some []) (some (SExp.list [SExp.atom "privkeys",
        SExp.list [SExp.atom "account",
          SExp.list [SExp.atom "name", SExp.atom "alice"],
          SExp.list [SExp.atom "protocol", SExp.atom "prot"],
          SExp.list [SExp.atom "private-key"]],
        SExp.atom "junk"])) []).2
      "alice" "prot").isSome = true := by
  have hgood : decodeEntry (SExp.list [SExp.atom "account",
      SExp.list [SExp.atom "name", SExp.atom "alice"],
      SExp.list [SExp.atom "protocol", SExp.atom "prot"],
      SExp.list [SExp.atom "private-key"]]) =
      some ⟨"alice", "prot", SExp.list [SExp.atom "private-key"]⟩ :=
    decodeEntry_encodeAccount ⟨"alice", "prot", SExp.list [SExp.atom "private-key"]⟩ rfl
  have hbad : decodeEntry (SExp.atom "junk") = none := by
    rw [decodeEntry.eq_def]
    rfl
  have hread : otrl_privkey_read (fun _ => some []) (some (SExp.list [SExp.atom "privkeys",
      SExp.list [SExp.atom "account",
        SExp.list [SExp.atom "name", SExp.atom "alice"],
        SExp.list [SExp.atom "protocol", SExp.atom "prot"],
        SExp.list [SExp.atom "private-key"]],
      SExp.atom "junk"])) [] =
      (false, [⟨"alice", "prot", SExp.list [SExp.atom "private-key"], []⟩]) := by
    rw [otrl_privkey_read_some (fun _ => some []) (SExp.list [SExp.atom "privkeys",
      SExp.list [SExp.atom "account",
        SExp.list [SExp.atom "name", SExp.atom "alice"],
        SExp.list [SExp.atom "protocol", SExp.atom "prot"],
        SExp.list [SExp.atom "private-key"]],
      SExp.atom "junk"]) [] rfl]
    rw [show keyFileEntries (SExp.list [SExp.atom "privkeys",
      SExp.list [SExp.atom "account",
        SExp.list [SExp.atom "name", SExp.atom "alice"],
        SExp.list [SExp.atom "protocol", SExp.atom "prot"],
        SExp.list [SExp.atom "private-key"]],
      SExp.atom "junk"]) = [SExp.list [SExp.atom "account",
        SExp.list [SExp.atom "name", SExp.atom "alice"],
        SExp.list [SExp.atom "protocol", SExp.atom "prot"],
        SExp.list [SExp.atom "private-key"]], SExp.atom "junk"] from rfl]
    rw [show otrl_privkey_forget_all [] = [] from rfl]
    rw [readLoop_cons_ok _ _ _ _ _ [] hgood rfl]
    rw [readLoop_cons_fail_decode _ _ _ _ hbad]
  rw [hread]
  exact ⟨rfl, rfl⟩

theorem readLoop_shift (mkpub : SExp → Option (List Nat)) (es : List SExp)
    (reg : List PrivKey) :
    readLoop mkpub es reg =
      ((readLoop mkpub es []).1, (readLoop mkpub es []).2 ++ reg) := by
  induction es generalizing reg with
  | nil => simp [readLoop_nil]
  | cons e rest ih =>
    cases hd : decodeEntry e with
    | none => simp [readLoop_cons_fail_decode mkpub e rest _ hd]
    | some a =>
      cases hm : mkpub a.privkey with
      | none => simp [readLoop_cons_fail_mkpub mkpub e rest _ a hd hm]
      | some pub =>
        rw [readLoop_cons_ok mkpub e rest reg a pub hd hm,
          readLoop_cons_ok mkpub e rest [] a pub hd hm,
          ih (⟨a.accountname, a.protocol, a.privkey, pub⟩ :: reg),
          ih [⟨a.accountname, a.protocol, a.privkey, pub⟩]]
        simp

theorem readLoop_prefix (mkpub : SExp → Option (List Nat)) (es : List SExp) :
    ∃ k, (readLoop mkpub es []).2 = (readLoop mkpub (es.take k) []).2 ∧
      (readLoop mkpub (es.take k) []).1 = true := by
  induction es with
  | nil => exact ⟨0, rfl, rfl⟩
  | cons e rest ih =>
    cases hd : decodeEntry e with
    | none =>
      exact ⟨0, by simp [readLoop_cons_fail_decode mkpub e rest _ hd, readLoop_nil], rfl⟩
    | some a =>
      cases hm : mkpub a.privkey with
      | none =>
        exact ⟨0, by simp [readLoop_cons_fail_mkpub mkpub e rest _ a hd hm, readLoop_nil], rfl⟩
      | some pub =>
        obtain ⟨k, hk1, hk2⟩ := ih
        refine ⟨k + 1, ?_, ?_⟩
        · rw [List.take_succ_cons, readLoop_cons_ok mkpub e rest [] a pub hd hm,
            readLoop_cons_ok mkpub e (rest.take k) [] a pub hd hm,
            readLoop_shift mkpub rest, readLoop_shift mkpub (rest.take k), hk1]
        · rw [List.take_succ_cons, readLoop_cons_ok mkpub e (rest.take k) [] a pub hd hm,
            readLoop_shift]
          simpa using hk2

/-- C1 (amended): the load always begins by clearing all previous state
(the result never depends on the prior registry), and after any load —
failing or not — the registry consists exactly of the records produced by
some successfully-loaded prefix of the file's entries; a mid-load failure
therefore keeps the records loaded before the failing entry rather than
discarding them, and no pre-load record ever survives. -/
theorem read_clears_and_keeps_prefix (mkpub : SExp → Option (List Nat))
    (file : Option SExp) (us : List PrivKey) :
    otrl_privkey_read mkpub file us = otrl_privkey_read mkpub file [] ∧
    ∃ k, (otrl_privkey_read mkpub file us).2 =
        (readLoop mkpub (((file.map keyFileEntries).getD []).take k) []).2 ∧
      (readLoop mkpub (((file.map keyFileEntries).getD []).take k) []).1 = true := by
  have hclear : otrl_privkey_read mkpub file us = otrl_privkey_read mkpub file [] := by
    simp [otrl_privkey_read, otrl_privkey_forget_all_eq_nil]
  refine ⟨hclear, ?_⟩
  rw [hclear]
  cases file with
  | none => exact ⟨0, rfl, rfl⟩
  | some allkeys =>
    by_cases htop : SExp.nthData allkeys 0 = some "privkeys"
    · obtain ⟨k, hk1, hk2⟩ := readLoop_prefix mkpub (keyFileEntries allkeys)
      refine ⟨k, ?_, ?_⟩
      · rw [otrl_privkey_read_some mkpub allkeys [] htop]
        rw [show otrl_privkey_forget_all [] = [] from rfl]
        simpa using hk1
      · simpa using hk2
    · refine ⟨0, ?_, rfl⟩
      simp [otrl_privkey_read, htop, readLoop_nil, otrl_privkey_forget_all]

/-- Counterexample to C4: loading a key file that contains two entries
with the same (accountname, protocol) succeeds and leaves both records in
the registry, so two records share one identity. -/
theorem read_duplicate_identities :
    (otrl_privkey_read (fun _ => some []) (some (SExp.list [SExp.atom "privkeys",
        SExp.list [SExp.atom "account",
          SExp.list [SExp.atom "name", SExp.atom "alice"],
          SExp.list [SExp.atom "protocol", SExp.atom "prot"],
          SExp.list [SExp.atom "private-key"]],
        SExp.list [SExp.atom "account",
          SExp.list [SExp.atom "name", SExp.atom "alice"],
          SExp.list [SExp.atom "protocol", SExp.atom "prot"],
          SExp.list [SExp.atom "private-key"]]])) []).1 = true ∧
    ((otrl_privkey_read (fun _ => some []) (some (SExp.list [SExp.atom "privkeys",
        SExp.list [SExp.atom "account",
          SExp.list [SExp.atom "name", SExp.atom "alice"],
          SExp.list [SExp.atom "protocol", SExp.atom "prot"],
          SExp.list [SExp.atom "private-key"]],
        SExp.list [SExp.atom "account",
          SExp.list [SExp.atom "name", SExp.atom "alice"],
          SExp.list [SExp.atom "protocol", SExp.atom "prot"],
          SExp.list [SExp.atom "private-key"]]])) []).2.map pkIdent) =
      [("alice", "prot"), ("alice", "prot")] := by
  have hgood : decodeEntry (SExp.list [SExp.atom "account",
      SExp.list [SExp.atom "name", SExp.atom "alice"],
      SExp.list [SExp.atom "protocol", SExp.atom "prot"],
      SExp.list [SExp.atom "private-key"]]) =
      some ⟨"alice", "prot", SExp.list [SExp.atom "private-key"]⟩ :=
    decodeEntry_encodeAccount ⟨"alice", "prot", SExp.list [SExp.atom "private-key"]⟩ rfl
  have hread : otrl_privkey_read (fun _ => some []) (some (SExp.list [SExp.atom "privkeys",
      SExp.list [SExp.atom "account",
        SExp.list [SExp.atom "name", SExp.atom "alice"],
        SExp.list [SExp.atom "protocol", SExp.atom "prot"],
        SExp.list [SExp.atom "private-key"]],
      SExp.list [SExp.atom "account",
        SExp.list [SExp.atom "name", SExp.atom "alice"],
        SExp.list [SExp.atom "protocol", SExp.atom "prot"],
        SExp.list [SExp.atom "private-key"]]])) [] =
      (true, [⟨"alice", "prot", SExp.list [SExp.atom "private-key"], []⟩,
        ⟨"alice", "prot", SExp.list [SExp.atom "private-key"], []⟩]) := by
    rw [otrl_privkey_read_some (fun _ => some []) (SExp.list [SExp.atom "privkeys",
      SExp.list [SExp.atom "account",
        SExp.list [SExp.atom "name", SExp.atom "alice"],
        SExp.list [SExp.atom "protocol", SExp.atom "prot"],
        SExp.list [SExp.atom "private-key"]],
      SExp.list [SExp.atom "account",
        SExp.list [SExp.atom "name", SExp.atom "alice"],
        SExp.list [SExp.atom "protocol", SExp.atom "prot"],
        SExp.list [SExp.atom "private-key"]]]) [] rfl]
    rw [show keyFileEntries (SExp.list [SExp.atom "privkeys",
      SExp.list [SExp.atom "account",
        SExp.list [SExp.atom "name", SExp.atom "alice"],
        SExp.list [SExp.atom "protocol", SExp.atom "prot"],
        SExp.list [SExp.atom "private-key"]],
      SExp.list [SExp.atom "account",
        SExp.list [SExp.atom "name", SExp.atom "alice"],
        SExp.list [SExp.atom "protocol", SExp.atom "prot"],
        SExp.list [SExp.atom "private-key"]]]) =
      [SExp.list [SExp.atom "account",
        SExp.list [SExp.atom "name", SExp.atom "alice"],
        SExp.list [SExp.atom "protocol", SExp.atom "prot"],
        SExp.list [SExp.atom "private-key"]],
       SExp.list [SExp.atom "account",
        SExp.list [SExp.atom "name", SExp.atom "alice"],
        SExp.list [SExp.atom "protocol", SExp.atom "prot"],
        SExp.list [SExp.atom "private-key"]]] from rfl]
    rw [show otrl_privkey_forget_all [] = [] from rfl]
    rw [readLoop_cons_ok _ _ _ _ _ [] hgood rfl, readLoop_cons_ok _ _ _ _ _ [] hgood rfl,
      readLoop_nil]
  rw [hread]
  exact ⟨rfl, rfl⟩

theorem writeAccounts_eq_filter (accountname protocol : String) (us : List PrivKey) :
    writeAccounts accountname protocol us =
      (us.filter fun p =>
        !(p.accountname = accountname && p.protocol = protocol)).map
        (fun p => ⟨p.accountname, p.protocol, p.privkey⟩) := by
  induction us with
  | nil => rfl
  | cons p rest ih =>
    by_cases h : p.accountname = accountname ∧ p.protocol = protocol
    · obtain ⟨h1, h2⟩ := h
      simp [writeAccounts, List.filter_cons, h1, h2, ih]
    · rw [writeAccounts.eq_def]
      have hb : (decide (p.accountname = accountname) &&
          decide (p.protocol = protocol)) = false := by
        rcases not_and_or.1 h with h1 | h1 <;> simp [h1]
      simp [hb, List.filter_cons, ih]
      rw [if_pos (not_and_or.1 h)]
      rfl

theorem readLoop_pairwise (mkpub : SExp → Option (List Nat)) (es : List SExp)
    (reg : List PrivKey)
    (hes : (es.map fun e => (decodeEntry e).map accIdent).Pairwise
      (fun o1 o2 => o1 = none ∨ o2 = none ∨ o1 ≠ o2))
    (hreg : (reg.map pkIdent).Pairwise (· ≠ ·))
    (hcross : ∀ e ∈ es, ∀ a, decodeEntry e = some a →
      ∀ p ∈ reg, accIdent a ≠ pkIdent p) :
    ((readLoop mkpub es reg).2.map pkIdent).Pairwise (· ≠ ·) := by
  induction es generalizing reg with
  | nil => simpa [readLoop_nil] using hreg
  | cons e rest ih =>
    rw [List.map_cons, List.pairwise_cons] at hes
    obtain ⟨hhead, hrest⟩ := hes
    cases hd : decodeEntry e with
    | none => rw [readLoop_cons_fail_decode mkpub e rest reg hd]; exact hreg
    | some a =>
      cases hm : mkpub a.privkey with
      | none => rw [readLoop_cons_fail_mkpub mkpub e rest reg a hd hm]; exact hreg
      | some pub =>
        rw [readLoop_cons_ok mkpub e rest reg a pub hd hm]
        refine ih _ hrest ?_ ?_
        · rw [List.map_cons, List.pairwise_cons]
          refine ⟨?_, hreg⟩
          intro q hq
          obtain ⟨p, hp, rfl⟩ := List.mem_map.1 hq
          exact hcross e (List.mem_cons_self e rest) a hd p hp
        · intro e2 he2 a2 hd2 p hp
          rcases List.mem_cons.1 hp with rfl | hp2
          · have hR := hhead ((decodeEntry e2).map accIdent)
              (List.mem_map_of_mem _ he2)
            rw [hd, hd2] at hR
            rw [show Option.map accIdent (some a) = some (accIdent a) from rfl,
              show Option.map accIdent (some a2) = some (accIdent a2) from rfl] at hR
            rcases hR with h | h | h
            · exact absurd h (by simp)
            · exact absurd h (by simp)
            · have hpk : pkIdent (⟨a.accountname, a.protocol, a.privkey, pub⟩ :
                  PrivKey) = accIdent a := rfl
              rw [hpk]
              exact fun heq => h (by rw [heq])
          · exact hcross e2 (List.mem_cons_of_mem e he2) a2 hd2 p hp2

/-- C4 (amended): the at-most-one-record-per-identity invariant holds
provided loaded key files do not themselves contain two entries with the
same (accountname, protocol): under that proviso a load — even a failing
one — yields a registry with pairwise-distinct identities; the file
written by generation has pairwise-distinct entry identities whenever the
registry does; and forgetting a record preserves distinctness.  The
loader itself does not deduplicate, so the proviso is necessary. -/
theorem registry_identities_distinct (mkpub : SExp → Option (List Nat))
    (file : Option SExp) (us us2 : List PrivKey) (accountname protocol : String)
    (newkey : SExp)
    (hdist : (((file.map keyFileEntries).getD []).map
        (fun e => (decodeEntry e).map accIdent)).Pairwise
        (fun o1 o2 => o1 = none ∨ o2 = none ∨ o1 ≠ o2))
    (huniq : (us2.map pkIdent).Pairwise (· ≠ ·)) :
    ((otrl_privkey_read mkpub file us).2.map pkIdent).Pairwise (· ≠ ·) ∧
    (((writeAccounts accountname protocol us2 ++
        [(⟨accountname, protocol, newkey⟩ : Account)]).map accIdent).Pairwise (· ≠ ·)) ∧
    (∀ i, ((otrl_privkey_forget us2 i).map pkIdent).Pairwise (· ≠ ·)) := by
  refine ⟨?_, ?_, ?_⟩
  · cases file with
    | none =>
      rw [show otrl_privkey_read mkpub none us =
        (false, otrl_privkey_forget_all us) from rfl, otrl_privkey_forget_all_eq_nil]
      simp
    | some allkeys =>
      by_cases htop : SExp.nthData allkeys 0 = some "privkeys"
      · rw [otrl_privkey_read_some mkpub allkeys us htop, otrl_privkey_forget_all_eq_nil]
        apply readLoop_pairwise
        · simpa using hdist
        · simp
        · intro e he a ha p hp
          simp at hp
      · rw [show otrl_privkey_read mkpub (some allkeys) us =
          (if SExp.nthData allkeys 0 = some "privkeys" then
            readLoop mkpub (keyFileEntries allkeys) (otrl_privkey_forget_all us)
          else (false, otrl_privkey_forget_all us)) from rfl,
          if_neg htop, otrl_privkey_forget_all_eq_nil]
        simp
  · rw [List.map_append, List.pairwise_append]
    refine ⟨?_, by simp, ?_⟩
    · rw [writeAccounts_eq_filter, List.map_map]
      have hmapeq : (accIdent ∘ fun p : PrivKey =>
          (⟨p.accountname, p.protocol, p.privkey⟩ : Account)) = pkIdent := rfl
      rw [hmapeq]
      exact huniq.sublist ((List.filter_sublist us2).map pkIdent)
    · intro x hx y hy
      rw [writeAccounts_eq_filter, List.map_map] at hx
      obtain ⟨p, hp, rfl⟩ := List.mem_map.1 hx
      simp only [List.map_cons, List.map_nil, List.mem_cons, List.not_mem_nil,
        or_false] at hy
      subst hy
      have hkeep := List.of_mem_filter hp
      intro heq
      have h1 : p.accountname = accountname := congrArg Prod.fst heq
      have h2 : p.protocol = protocol := congrArg Prod.snd heq
      rw [h1, h2] at hkeep
      simp at hkeep
  · intro i
    exact huniq.sublist ((List.eraseIdx_sublist us2 i).map pkIdent)

/-- Witness for C4 (amended) on a two-entry key file and a two-record
registry with distinct identities. -/
theorem registry_identities_distinct_witness :
    ((otrl_privkey_read (fun _ => some []) (some (SExp.list [SExp.atom "privkeys",
        SExp.list [SExp.atom "account",
          SExp.list [SExp.atom "name", SExp.atom "alice"],
          SExp.list [SExp.atom "protocol", SExp.atom "prot"],
          SExp.list [SExp.atom "private-key"]],
        SExp.list [SExp.atom "account",
          SExp.list [SExp.atom "name", SExp.atom "bob"],
          SExp.list [SExp.atom "protocol", SExp.atom "prot"],
          SExp.list [SExp.atom "private-key"]]])) []).2.map pkIdent).Pairwise (· ≠ ·) ∧
    (((writeAccounts "alice" "prot"
        [⟨"alice", "prot", SExp.list [SExp.atom "private-key"], []⟩,
         ⟨"bob", "prot", SExp.list [SExp.atom "private-key"], []⟩] ++
        [(⟨"alice", "prot", SExp.list [SExp.atom "private-key"]⟩ : Account)]).map
        accIdent).Pairwise (· ≠ ·)) ∧
    (∀ i, ((otrl_privkey_forget
        [⟨"alice", "prot", SExp.list [SExp.atom "private-key"], []⟩,
         ⟨"bob", "prot", SExp.list [SExp.atom "private-key"], []⟩] i).map
        pkIdent).Pairwise (· ≠ ·)) := by
  have h1 : decodeEntry (SExp.list [SExp.atom "account",
      SExp.list [SExp.atom "name", SExp.atom "alice"],
      SExp.list [SExp.atom "protocol", SExp.atom "prot"],
      SExp.list [SExp.atom "private-key"]]) =
      some ⟨"alice", "prot", SExp.list [SExp.atom "private-key"]⟩ :=
    decodeEntry_encodeAccount ⟨"alice", "prot", SExp.list [SExp.atom "private-key"]⟩ rfl
  have h2 : decodeEntry (SExp.list [SExp.atom "account",
      SExp.list [SExp.atom "name", SExp.atom "bob"],
      SExp.list [SExp.atom "protocol", SExp.atom "prot"],
      SExp.list [SExp.atom "private-key"]]) =
      some ⟨"bob", "prot", SExp.list [SExp.atom "private-key"]⟩ :=
    decodeEntry_encodeAccount ⟨"bob", "prot", SExp.list [SExp.atom "private-key"]⟩ rfl
  exact registry_identities_distinct (fun _ => some [])
    (some (SExp.list [SExp.atom "privkeys",
        SExp.list [SExp.atom "account",
          SExp.list [SExp.atom "name", SExp.atom "alice"],
          SExp.list [SExp.atom "protocol", SExp.atom "prot"],
          SExp.list [SExp.atom "private-key"]],
        SExp.list [SExp.atom "account",
          SExp.list [SExp.atom "name", SExp.atom "bob"],
          SExp.list [SExp.atom "protocol", SExp.atom "prot"],
          SExp.list [SExp.atom "private-key"]]])) []
    [⟨"alice", "prot", SExp.list [SExp.atom "private-key"], []⟩,
     ⟨"bob", "prot", SExp.list [SExp.atom "private-key"], []⟩]
    "alice" "prot" (SExp.list [SExp.atom "private-key"])
    (by
      rw [show ((some (SExp.list [SExp.atom "privkeys",
        SExp.list [SExp.atom "account",
          SExp.list [SExp.atom "name", SExp.atom "alice"],
          SExp.list [SExp.atom "protocol", SExp.atom "prot"],
          SExp.list [SExp.atom "private-key"]],
        SExp.list [SExp.atom "account",
          SExp.list [SExp.atom "name", SExp.atom "bob"],
          SExp.list [SExp.atom "protocol", SExp.atom "prot"],
          SExp.list [SExp.atom "private-key"]]])).map keyFileEntries).getD [] =
        [SExp.list [SExp.atom "account",
          SExp.list [SExp.atom "name", SExp.atom "alice"],
          SExp.list [SExp.atom "protocol", SExp.atom "prot"],
          SExp.list [SExp.atom "private-key"]],
         SExp.list [SExp.atom "account",
          SExp.list [SExp.atom "name", SExp.atom "bob"],
          SExp.list [SExp.atom "protocol", SExp.atom "prot"],
          SExp.list [SExp.atom "private-key"]]] from rfl]
      rw [List.map_cons, List.map_cons, List.map_nil, h1, h2]
      simp [List.pairwise_cons, accIdent])
    (by decide)

theorem decodeEntry_eq_none_iff (e : SExp) :
    decodeEntry e = none ↔
      (SExp.nthData e 0 ≠ some "account" ∨
       (¬∃ s, SExp.findToken "name" e = some s ∧ (SExp.nthData s 1).isSome) ∨
       (¬∃ s, SExp.findToken "protocol" e = some s ∧ (SExp.nthData s 1).isSome) ∨
       SExp.findToken "private-key" e = none) := by
  rw [decodeEntry.eq_def]
  cases h0 : SExp.nthData e 0 with
  | none => simp
  | some tok =>
    by_cases htok : tok = "account"
    · subst htok
      simp only [ne_eq, not_true_eq_false, if_false, Option.some.injEq,
        reduceCtorEq, false_or]
      cases hn : SExp.findToken "name" e with
      | none => simp
      | some names =>
        cases hp : SExp.findToken "protocol" e with
        | none => simp
        | some protos =>
          cases hk : SExp.findToken "private-key" e with
          | none => simp
          | some privs =>
            cases hv1 : SExp.nthData names 1 with
            | none => simp [hv1]
            | some v1 =>
              cases hv2 : SExp.nthData protos 1 with
              | none => simp [hv1, hv2]
              | some v2 => simp [hv1, hv2]
    · simp [htok]

theorem decodeEntries_eq_none_iff (es : List SExp) :
    decodeEntries es = none ↔ ∃ e ∈ es, decodeEntry e = none := by
  induction es with
  | nil => simp [decodeEntries]
  | cons e rest ih =>
    cases hd : decodeEntry e with
    | none => simp [decodeEntries, hd]
    | some a => simp [decodeEntries, hd, ih]

/-- C5: key-file decoding fails (with `GPG_ERR_UNUSABLE_SECKEY`, or the
parse error of `gcry_sexp_new`) exactly when the bytes are unparsable, or
the outer token is not the literal `privkeys`, or some entry has an outer
token other than the literal `account`, or some entry is missing a usable
`name`, `protocol` or `private-key` sub-expression (for `name` and
`protocol`: no such sub-expression carrying an atomic value at index 1) —
and on failure no triples at all are returned. -/
theorem decodeKeyFile_fails_iff (file : Option SExp) :
    decodeKeyFile file = none ↔
      (file = none ∨
       ∃ allkeys, file = some allkeys ∧
         (SExp.nthData allkeys 0 ≠ some "privkeys" ∨
          ∃ e ∈ keyFileEntries allkeys,
            (SExp.nthData e 0 ≠ some "account" ∨
             (¬∃ s, SExp.findToken "name" e = some s ∧ (SExp.nthData s 1).isSome) ∨
             (¬∃ s, SExp.findToken "protocol" e = some s ∧ (SExp.nthData s 1).isSome) ∨
             SExp.findToken "private-key" e = none))) := by
  cases file with
  | none => simp [decodeKeyFile]
  | some allkeys =>
    by_cases htop : SExp.nthData allkeys 0 = some "privkeys"
    · rw [show decodeKeyFile (some allkeys) =
        decodeEntries (keyFileEntries allkeys) from by simp [decodeKeyFile, htop]]
      rw [decodeEntries_eq_none_iff]
      simp only [decodeEntry_eq_none_iff]
      simp [htop]
    · rw [show decodeKeyFile (some allkeys) = none from by simp [decodeKeyFile, htop]]
      simp only [true_iff]
      exact Or.inr ⟨allkeys, rfl, Or.inl htop⟩

theorem decodeEntries_map_encodeAccount (accs : List Account)
    (h : ∀ a ∈ accs, SExp.headIs a.privkey "private-key" = true) :
    decodeEntries (accs.map encodeAccount) = some accs := by
  induction accs with
  | nil => rfl
  | cons a rest ih =>
    rw [List.map_cons]
    have hd := decodeEntry_encodeAccount a (h a (List.mem_cons_self a rest))
    rw [show decodeEntries (encodeAccount a :: rest.map encodeAccount) =
      match decodeEntry (encodeAccount a) with
      | none => none
      | some x => (decodeEntries (rest.map encodeAccount)).map (x :: ·) from rfl]
    rw [hd, ih (fun x hx => h x (List.mem_cons_of_mem a hx))]
    rfl

theorem writeAccounts_all_kept (accountname protocol : String) (us : List PrivKey)
    (h : ∀ p ∈ us, ¬(p.accountname = accountname ∧ p.protocol = protocol)) :
    writeAccounts accountname protocol us =
      us.map (fun p => ⟨p.accountname, p.protocol, p.privkey⟩) := by
  rw [writeAccounts_eq_filter]
  congr 1
  apply List.filter_eq_self.2
  intro p hp
  have hb : (decide (p.accountname = accountname) &&
      decide (p.protocol = protocol)) = false := by
    rcases not_and_or.1 (h p hp) with h1 | h1 <;> simp [h1]
  rw [hb]
  rfl

theorem writeAccounts_length_of_match (accountname protocol : String)
    (us : List PrivKey) (huniq : (us.map pkIdent).Pairwise (· ≠ ·))
    (hex : ∃ p ∈ us, p.accountname = accountname ∧ p.protocol = protocol) :
    us.length = (writeAccounts accountname protocol us).length + 1 := by
  induction us with
  | nil => simp at hex
  | cons p rest ih =>
    rw [List.map_cons, List.pairwise_cons] at huniq
    obtain ⟨hhead, htail⟩ := huniq
    by_cases hm : p.accountname = accountname ∧ p.protocol = protocol
    · have hnone : ∀ q ∈ rest, ¬(q.accountname = accountname ∧ q.protocol = protocol) := by
        intro q hq hqm
        apply hhead (pkIdent q) (List.mem_map_of_mem _ hq)
        show (p.accountname, p.protocol) = (q.accountname, q.protocol)
        rw [hm.1, hm.2, hqm.1, hqm.2]
      have hstep : writeAccounts accountname protocol (p :: rest) =
          if p.accountname = accountname && p.protocol = protocol then
            writeAccounts accountname protocol rest
          else
            ⟨p.accountname, p.protocol, p.privkey⟩ ::
              writeAccounts accountname protocol rest := rfl
      have hb : (decide (p.accountname = accountname) &&
          decide (p.protocol = protocol)) = true := by simp [hm.1, hm.2]
      rw [hstep, if_pos hb]
      rw [writeAccounts_all_kept accountname protocol rest hnone]
      simp
    · have hstep : writeAccounts accountname protocol (p :: rest) =
          if p.accountname = accountname && p.protocol = protocol then
            writeAccounts accountname protocol rest
          else
            ⟨p.accountname, p.protocol, p.privkey⟩ ::
              writeAccounts accountname protocol rest := rfl
      have hb : (decide (p.accountname = accountname) &&
          decide (p.protocol = protocol)) = false := by
        rcases not_and_or.1 hm with h1 | h1 <;> simp [h1]
      rw [hstep, if_neg (by simp [hb])]
      simp only [List.length_cons]
      have hex2 : ∃ q ∈ rest, q.accountname = accountname ∧ q.protocol = protocol := by
        obtain ⟨q, hq, hqm⟩ := hex
        rcases List.mem_cons.1 hq with rfl | hq2
        · exact absurd hqm hm
        · exact ⟨q, hq2, hqm⟩
      rw [ih htail hex2]

/-- C6: the key file written by generation decodes to every registry entry
whose identity differs from the requested one, unchanged and in registry
order, followed by exactly one new entry for the requested identity; when
the registry's identities are pairwise distinct and some entry matches,
exactly one prior entry is removed. -/
theorem generate_file_spec (us : List PrivKey) (accountname protocol : String)
    (newkey : SExp)
    (hpk : ∀ p ∈ us, SExp.headIs p.privkey "private-key" = true)
    (hnew : SExp.headIs newkey "private-key" = true)
    (huniq : (us.map pkIdent).Pairwise (· ≠ ·)) :
    decodeKeyFile (some (generateKeyFile us accountname protocol newkey)) =
      some (writeAccounts accountname protocol us ++
        [(⟨accountname, protocol, newkey⟩ : Account)]) ∧
    writeAccounts accountname protocol us =
      (us.filter fun p =>
        !(p.accountname = accountname && p.protocol = protocol)).map
        (fun p => ⟨p.accountname, p.protocol, p.privkey⟩) ∧
    ((∃ p ∈ us, p.accountname = accountname ∧ p.protocol = protocol) →
      us.length = (writeAccounts accountname protocol us).length + 1) := by
  refine ⟨?_, writeAccounts_eq_filter accountname protocol us,
    writeAccounts_length_of_match accountname protocol us huniq⟩
  rw [generateKeyFile, encodeKeyFile]
  rw [show decodeKeyFile (some (SExp.list (SExp.atom "privkeys" ::
      ((writeAccounts accountname protocol us ++
        [(⟨accountname, protocol, newkey⟩ : Account)]).map encodeAccount)))) =
    decodeEntries ((writeAccounts accountname protocol us ++
        [(⟨accountname, protocol, newkey⟩ : Account)]).map encodeAccount) from by
      simp [decodeKeyFile, SExp.nthData, keyFileEntries]]
  apply decodeEntries_map_encodeAccount
  intro a ha
  rcases List.mem_append.1 ha with ha | ha
  · rw [writeAccounts_eq_filter] at ha
    obtain ⟨p, hp, rfl⟩ := List.mem_map.1 ha
    exact hpk p (List.mem_of_mem_filter hp)
  · simp only [List.mem_cons, List.not_mem_nil, or_false] at ha
    subst ha
    exact hnew

/-- Witness for C6 on a two-record registry, regenerating the key for the
first record's identity. -/
theorem generate_file_spec_witness :
    decodeKeyFile (some (generateKeyFile
        [⟨"alice", "prot", SExp.list [SExp.atom "private-key", SExp.atom "k1"], []⟩,
         ⟨"bob", "prot", SExp.list [SExp.atom "private-key", SExp.atom "k2"], []⟩]
        "alice" "prot" (SExp.list [SExp.atom "private-key", SExp.atom "k3"]))) =
      some (writeAccounts "alice" "prot"
        [⟨"alice", "prot", SExp.list [SExp.atom "private-key", SExp.atom "k1"], []⟩,
         ⟨"bob", "prot", SExp.list [SExp.atom "private-key", SExp.atom "k2"], []⟩] ++
        [(⟨"alice", "prot", SExp.list [SExp.atom "private-key", SExp.atom "k3"]⟩ :
          Account)]) ∧
    writeAccounts "alice" "prot"
        [⟨"alice", "prot", SExp.list [SExp.atom "private-key", SExp.atom "k1"], []⟩,
         ⟨"bob", "prot", SExp.list [SExp.atom "private-key", SExp.atom "k2"], []⟩] =
      (([⟨"alice", "prot", SExp.list [SExp.atom "private-key", SExp.atom "k1"], []⟩,
         ⟨"bob", "prot", SExp.list [SExp.atom "private-key", SExp.atom "k2"], []⟩] :
         List PrivKey).filter fun p =>
        !(p.accountname = "alice" && p.protocol = "prot")).map
        (fun p => ⟨p.accountname, p.protocol, p.privkey⟩) ∧
    ((∃ p ∈ ([⟨"alice", "prot", SExp.list [SExp.atom "private-key", SExp.atom "k1"], []⟩,
         ⟨"bob", "prot", SExp.list [SExp.atom "private-key", SExp.atom "k2"], []⟩] :
         List PrivKey), p.accountname = "alice" ∧ p.protocol = "prot") →
      ([⟨"alice", "prot", SExp.list [SExp.atom "private-key", SExp.atom "k1"], []⟩,
         ⟨"bob", "prot", SExp.list [SExp.atom "private-key", SExp.atom "k2"], []⟩] :
         List PrivKey).length =
        (writeAccounts "alice" "prot"
          [⟨"alice", "prot", SExp.list [SExp.atom "private-key", SExp.atom "k1"], []⟩,
           ⟨"bob", "prot", SExp.list [SExp.atom "private-key", SExp.atom "k2"], []⟩]).length + 1) :=
  generate_file_spec
    [⟨"alice", "prot", SExp.list [SExp.atom "private-key", SExp.atom "k1"], []⟩,
     ⟨"bob", "prot", SExp.list [SExp.atom "private-key", SExp.atom "k2"], []⟩]
    "alice" "prot" (SExp.list [SExp.atom "private-key", SExp.atom "k3"])
    (by decide) (by decide) (by decide)

/-- C2, evaluated at the failing input: `otrl_privkey_generate` never uses
a temporary path or a rename — every file event touches the target path
itself and none is a rename; with a non-empty previous key file, key
generation and open succeeding, the state right after the first event
(the `fopen(filename, "w")`) already has the target truncated to empty,
differing from the previous contents, so a failure after that point does
not leave the previous on-disk file untouched.  Only a failure to
generate key material or to open the file (the last two conjuncts) leaves
the file untouched, because then nothing is written at all. -/
theorem generate_truncates_target_in_place :
    (∀ e ∈ otrl_privkey_generate_trace (fun _ => "S") [] "otr.private_key"
        "alice" "xmpp" (SExp.list [SExp.atom "private-key"]) true true,
      eventPath e = "otr.private_key" ∧ isRename e = false) ∧
    applyEvents
      (fun q => if q = "otr.private_key" then some "(privkeys\nOLD)\n" else none)
      ((otrl_privkey_generate_trace (fun _ => "S") [] "otr.private_key"
        "alice" "xmpp" (SExp.list [SExp.atom "private-key"]) true true).take 1)
      "otr.private_key" = some "" ∧
    some "" ≠
      (fun q => if q = "otr.private_key" then some "(privkeys\nOLD)\n" else none)
        "otr.private_key" ∧
    otrl_privkey_generate_trace (fun _ => "S") [] "otr.private_key"
        "alice" "xmpp" (SExp.list [SExp.atom "private-key"]) false true = [] ∧
    otrl_privkey_generate_trace (fun _ => "S") [] "otr.private_key"
        "alice" "xmpp" (SExp.list [SExp.atom "private-key"]) true false = [] := by
  refine ⟨by decide, rfl, by decide, rfl, rfl⟩
